import Mathlib

/-!
Shallow embedding of the hyperbolic isometry core (common/src/math/isometry.rs),
with the numeric parameter N : RealField instantiated at ℝ.  The vector, matrix
and quaternion operations of the linear-algebra collaborator are modelled
componentwise.  The hyperbolic-geometry helper module providing origin,
distance and translate lives in the repository outside the provided sources,
so those three are modelled from the spec.
-/

namespace Hypermine

noncomputable section

/-- Real 3-vector, modelling na::Vector3. -/
@[ext]
structure Vector3 where
  x : ℝ
  y : ℝ
  z : ℝ

/-- Homogeneous real 4-vector, modelling na::Vector4. -/
@[ext]
structure Vector4 where
  x : ℝ
  y : ℝ
  z : ℝ
  w : ℝ

/-- Spatial part of a homogeneous vector, modelling Vector4::xyz(). -/
def Vector4.xyz (v : Vector4) : Vector3 := ⟨v.x, v.y, v.z⟩

/-- Componentwise sum of 4-vectors. -/
def addV4 (u v : Vector4) : Vector4 := ⟨u.x + v.x, u.y + v.y, u.z + v.z, u.w + v.w⟩

/-- Scalar multiple of a 4-vector. -/
def smulV4 (c : ℝ) (v : Vector4) : Vector4 := ⟨c * v.x, c * v.y, c * v.z, c * v.w⟩

/-- Euclidean dot product on ℝ⁴. -/
def dot4 (u v : Vector4) : ℝ := u.x * v.x + u.y * v.y + u.z * v.z + u.w * v.w

/-- Real 4×4 matrix stored by rows, modelling na::Matrix4. -/
@[ext]
structure Matrix4 where
  r0 : Vector4
  r1 : Vector4
  r2 : Vector4
  r3 : Vector4

/-- Matrix–vector product. -/
def mulVec4 (m : Matrix4) (v : Vector4) : Vector4 :=
  ⟨dot4 m.r0 v, dot4 m.r1 v, dot4 m.r2 v, dot4 m.r3 v⟩

/-- Cross product of 3-vectors, modelling Vector3::cross. -/
def cross (u v : Vector3) : Vector3 :=
  ⟨u.y * v.z - u.z * v.y, u.z * v.x - u.x * v.z, u.x * v.y - u.y * v.x⟩

/-- Euclidean norm of a 3-vector. -/
def norm3 (v : Vector3) : ℝ := Real.sqrt (v.x * v.x + v.y * v.y + v.z * v.z)

/-- Scalar multiple of a 3-vector. -/
def smul3 (c : ℝ) (v : Vector3) : Vector3 := ⟨c * v.x, c * v.y, c * v.z⟩

/-- Modelling na::Unit::new_and_get: the input divided by its norm, paired with the norm. -/
def unitNewAndGet (v : Vector3) : Vector3 × ℝ := (smul3 (1 / norm3 v) v, norm3 v)

/-- Real quaternion, modelling na::UnitQuaternion (the library keeps these unit-norm
by construction; only the operations the core uses are modelled). -/
@[ext]
structure Quat where
  re : ℝ
  i : ℝ
  j : ℝ
  k : ℝ

/-- Hamilton product of quaternions. -/
def Quat.mul (p q : Quat) : Quat :=
  ⟨p.re * q.re - p.i * q.i - p.j * q.j - p.k * q.k,
   p.re * q.i + p.i * q.re + p.j * q.k - p.k * q.j,
   p.re * q.j - p.i * q.k + p.j * q.re + p.k * q.i,
   p.re * q.k + p.i * q.j - p.j * q.i + p.k * q.re⟩

instance : Mul Quat := ⟨Quat.mul⟩

/-- Identity quaternion, modelling na::one(). -/
def Quat.one : Quat := ⟨1, 0, 0, 0⟩

instance : One Quat := ⟨Quat.one⟩

/-- Quaternion conjugate; the inverse of a unit quaternion. -/
def Quat.conj (q : Quat) : Quat := ⟨q.re, -q.i, -q.j, -q.k⟩

/-- A 3-vector as a pure quaternion. -/
def pure3 (v : Vector3) : Quat := ⟨0, v.x, v.y, v.z⟩

/-- Rotation action of a unit quaternion on a 3-vector: the vector part of q·v·q⁻¹,
modelling UnitQuaternion * Vector3. -/
def rotateVec (q : Quat) (v : Vector3) : Vector3 :=
  let r := q * pure3 v * q.conj
  ⟨r.i, r.j, r.k⟩

/-- Modelling UnitQuaternion::inverse_transform_vector: rotation by the inverse,
which for a unit quaternion is its conjugate. -/
def inverseTransformVector (q : Quat) (v : Vector3) : Vector3 := rotateVec q.conj v

/-- Modelling UnitQuaternion::from_axis_angle. -/
def fromAxisAngle (axis : Vector3) (angle : ℝ) : Quat :=
  ⟨Real.cos (angle / 2), Real.sin (angle / 2) * axis.x, Real.sin (angle / 2) * axis.y,
   Real.sin (angle / 2) * axis.z⟩

/-- Minkowski inner product of signature (+,+,+,−) on homogeneous coordinates. -/
def mip (u v : Vector4) : ℝ := u.x * v.x + u.y * v.y + u.z * v.z - u.w * v.w

/-- Lowering by the Minkowski form: flips the sign of the w coordinate. -/
def minkJ (v : Vector4) : Vector4 := ⟨v.x, v.y, v.z, -v.w⟩

/-- Modelled from the spec: origin() of the hyperbolic-geometry helper module that is
missing from the provided sources, the hyperboloid origin point. -/
def origin : Vector4 := ⟨0, 0, 0, 1⟩

/-- Inverse hyperbolic cosine. -/
def arcosh (x : ℝ) : ℝ := Real.log (x + Real.sqrt (x ^ 2 - 1))

/-- Modelled from the spec: distance(p,q) of the hyperbolic-geometry helper module that
is missing from the provided sources, the geodesic distance between two homogeneous
points of the hyperboloid model, cosh d = sqrt(⟨p,q⟩² / (⟨p,p⟩·⟨q,q⟩)) in the
Minkowski form (scale-invariant in both homogeneous arguments). -/
def distance (p q : Vector4) : ℝ := arcosh (Real.sqrt (mip p q ^ 2 / (mip p p * mip q q)))

/-- Modelled from the spec: translate(a,b) of the hyperbolic-geometry helper module that
is missing from the provided sources, the homogeneous matrix of the hyperbolic
translation moving point a to point b along the geodesic through them (the composite of
the point reflections through a and through the midpoint of a and b):
I − 2·b·(Ja)ᵀ + (a+b)·(J(a+b))ᵀ / (1 − ⟨a,b⟩). -/
def translate (a b : Vector4) : Matrix4 :=
  let s := addV4 a b
  let q := 1 / (1 - mip a b)
  ⟨addV4 (addV4 ⟨1, 0, 0, 0⟩ (smulV4 (-2 * b.x) (minkJ a))) (smulV4 (q * s.x) (minkJ s)),
   addV4 (addV4 ⟨0, 1, 0, 0⟩ (smulV4 (-2 * b.y) (minkJ a))) (smulV4 (q * s.y) (minkJ s)),
   addV4 (addV4 ⟨0, 0, 1, 0⟩ (smulV4 (-2 * b.z) (minkJ a))) (smulV4 (q * s.z) (minkJ s)),
   addV4 (addV4 ⟨0, 0, 0, 1⟩ (smulV4 (-2 * b.w) (minkJ a))) (smulV4 (q * s.w) (minkJ s))⟩

/-- Modelling na::clamp: the value clamped to the interval from lo to hi. -/
def clamp (val lo hi : ℝ) : ℝ :=
  if lo < val then (if val < hi then val else hi) else lo

/-- Source loc_angle: the interior angle opposite side a, by the hyperbolic law of
cosines, zero when sinh b · sinh c vanishes. -/
def loc_angle (a b c : ℝ) : ℝ :=
  let denom := Real.sinh b * Real.sinh c
  if denom = 0 then 0
  else Real.arccos (clamp ((Real.cosh b * Real.cosh c - Real.cosh a) / denom) (-1) 1)

/-- Source triangle_defect: the angular defect of the geodesic triangle on the three
homogeneous points, zero when any side length is exactly zero. -/
def triangle_defect (p0 p1 p2 : Vector4) : ℝ :=
  let a := distance p0 p1
  let b := distance p1 p2
  let c := distance p2 p0
  if a = 0 ∨ b = 0 ∨ c = 0 then 0
  else Real.pi - (loc_angle a b c + loc_angle b c a + loc_angle c a b)

/-- Source Isometry: a hyperbolic translation followed by a rotation. -/
@[ext]
structure Isometry where
  translation : Vector4
  rotation : Quat

/-- Source Isometry::identity. -/
def Isometry.identity : Isometry := ⟨origin, 1⟩

/-- Source Isometry::from_parts as compiled in a release build, where the
debug_assert is compiled out: wraps the given parts unmodified. -/
def Isometry.from_parts (translation : Vector4) (rotation : Quat) : Isometry :=
  ⟨translation, rotation⟩

/-- Source Isometry::from_parts as compiled in a debug build: the
debug_assert!(translation.w != 0) is modelled as returning none exactly when the
assertion fires. -/
def from_parts_debug (translation : Vector4) (rotation : Quat) : Option Isometry :=
  if translation.w ≠ 0 then some ⟨translation, rotation⟩ else none

/-- Source Mul of &Isometry and &Vector4: the canonical application of an isometry to a
homogeneous vector. -/
def Isometry.mulVec (self : Isometry) (rhs : Vector4) : Vector4 :=
  let rotated := rotateVec self.rotation rhs.xyz
  mulVec4 (translate origin self.translation) ⟨rotated.x, rotated.y, rotated.z, rhs.w⟩

/-- Source forwarding overload Mul of Isometry (owned) and &Vector4. -/
def mulVecValRef (self : Isometry) (rhs : Vector4) : Vector4 := Isometry.mulVec self rhs

/-- Source forwarding overload Mul of &Isometry and Vector4 (owned). -/
def mulVecRefVal (self : Isometry) (rhs : Vector4) : Vector4 := Isometry.mulVec self rhs

/-- Source forwarding overload Mul of Isometry (owned) and Vector4 (owned). -/
def mulVecValVal (self : Isometry) (rhs : Vector4) : Vector4 := Isometry.mulVec self rhs

/-- Source Mul of &Isometry and &Isometry: composition of two isometries. -/
def Isometry.mul (self rhs : Isometry) : Isometry :=
  let x0 := inverseTransformVector rhs.rotation self.translation.xyz
  let x : Vector4 := ⟨x0.x, x0.y, x0.z, self.translation.w⟩
  let translation := mulVec4 (translate origin x) rhs.translation
  let am := unitNewAndGet (cross translation.xyz x.xyz)
  let rotation :=
    if am.2 = 0 then self.rotation * rhs.rotation
    else self.rotation * rhs.rotation * fromAxisAngle am.1 (triangle_defect x translation origin)
  ⟨translation, rotation⟩

/-- Source test-only AbsDiffEq on Vector4: componentwise within epsilon. -/
def absDiffEqV4 (ε : ℝ) (u v : Vector4) : Prop :=
  |u.x - v.x| ≤ ε ∧ |u.y - v.y| ≤ ε ∧ |u.z - v.z| ≤ ε ∧ |u.w - v.w| ≤ ε

/-- Source test-only AbsDiffEq on the rotation quaternion: componentwise within epsilon. -/
def absDiffEqQ (ε : ℝ) (p q : Quat) : Prop :=
  |p.re - q.re| ≤ ε ∧ |p.i - q.i| ≤ ε ∧ |p.j - q.j| ≤ ε ∧ |p.k - q.k| ≤ ε

/-- Source test-only AbsDiffEq for Isometry: translation and rotation componentwise
within epsilon. -/
def absDiffEq (ε : ℝ) (a b : Isometry) : Prop :=
  absDiffEqV4 ε a.translation b.translation ∧ absDiffEqQ ε a.rotation b.rotation

/-- Claim C1's description of the composition algorithm, transcribed from the spec
text rather than the source. -/
def composeSpec (self rhs : Isometry) : Isometry :=
  let xs := rotateVec rhs.rotation.conj self.translation.xyz
  let x : Vector4 := ⟨xs.x, xs.y, xs.z, self.translation.w⟩
  let t := mulVec4 (translate origin x) rhs.translation
  let axis := (unitNewAndGet (cross t.xyz x.xyz)).1
  let magnitude := (unitNewAndGet (cross t.xyz x.xyz)).2
  ⟨t,
   if magnitude = 0 then self.rotation * rhs.rotation
   else self.rotation * rhs.rotation * fromAxisAngle axis (triangle_defect x t origin)⟩

/-- The hyperbolic law-of-cosines angle exactly as the spec states it, with the clamp
to the interval from −1 to 1 written through max and min. -/
def locAngleSpec (a b c : ℝ) : ℝ :=
  Real.arccos (max (-1)
    (min ((Real.cosh b * Real.cosh c - Real.cosh a) / (Real.sinh b * Real.sinh c)) 1))

/-- Multiplication on Quat unfolds to the Hamilton product. -/
lemma Quat.mul_def (p q : Quat) : p * q = Quat.mul p q := rfl

/-- The literal form of the identity quaternion. -/
lemma Quat.one_def : (1 : Quat) = Quat.one := rfl

lemma quat_one_mul (q : Quat) : (1 : Quat) * q = q := by
  ext <;> simp [Quat.mul_def, Quat.mul, Quat.one_def, Quat.one]

lemma quat_mul_one (q : Quat) : q * (1 : Quat) = q := by
  ext <;> simp [Quat.mul_def, Quat.mul, Quat.one_def, Quat.one]

lemma conj_one : Quat.conj 1 = 1 := by
  ext <;> simp [Quat.conj, Quat.one_def, Quat.one]

lemma rotateVec_one (v : Vector3) : rotateVec 1 v = v := by
  simp only [rotateVec, conj_one, quat_one_mul, quat_mul_one]
  rfl

lemma rotateVec_zero3 (q : Quat) : rotateVec q ⟨0, 0, 0⟩ = ⟨0, 0, 0⟩ := by
  ext <;> simp [rotateVec, pure3, Quat.mul_def, Quat.mul, Quat.conj]

lemma cross_self (v : Vector3) : cross v v = ⟨0, 0, 0⟩ := by
  ext <;> simp [cross] <;> ring

lemma cross_zero_right (v : Vector3) : cross v ⟨0, 0, 0⟩ = ⟨0, 0, 0⟩ := by
  ext <;> simp [cross]

lemma origin_x : origin.x = 0 := rfl

lemma origin_y : origin.y = 0 := rfl

lemma origin_z : origin.z = 0 := rfl

lemma origin_w : origin.w = 1 := rfl

lemma norm3_zero3 : norm3 ⟨0, 0, 0⟩ = 0 := by
  simp [norm3]

lemma mulVec4_translate_apply (a b v : Vector4) :
    mulVec4 (translate a b) v =
      addV4 (addV4 v (smulV4 (-2 * mip a v) b))
        (smulV4 (mip (addV4 a b) v / (1 - mip a b)) (addV4 a b)) := by
  ext <;> (simp [translate, mulVec4, dot4, addV4, smulV4, minkJ, mip, div_eq_mul_inv]; ring)

lemma mulVec4_translate_origin_origin (v : Vector4) :
    mulVec4 (translate origin ⟨0, 0, 0, 1⟩) v = v := by
  have h : (⟨0, 0, 0, 1⟩ : Vector4) = origin := rfl
  rw [h, mulVec4_translate_apply]
  ext <;> simp [addV4, smulV4, mip, origin] <;> ring_nf

lemma mulVec4_translate_origin_point (p : Vector4) (h : p.w ≠ -1) :
    mulVec4 (translate origin p) origin = p := by
  have h' : 1 + p.w ≠ 0 := by
    intro hc
    exact h (by linarith)
  rw [mulVec4_translate_apply]
  have hm : mip origin p = -p.w := by simp [mip, origin]
  have hmo : mip origin origin = -1 := by simp [mip, origin]
  have hms : mip (addV4 origin p) origin = -(1 + p.w) := by
    simp [mip, addV4, origin]
  rw [hm, hmo, hms]
  have hd : -(1 + p.w) / (1 - -p.w) = -1 := by
    rw [show (1 : ℝ) - -p.w = 1 + p.w by ring, neg_div, div_self h']
  rw [hd]
  ext <;> simp [addV4, smulV4, origin] <;> ring

lemma eta_v4 (v : Vector4) : (⟨v.x, v.y, v.z, v.w⟩ : Vector4) = v := rfl

lemma mul_identity_left (t : Isometry) : Isometry.mul Isometry.identity t = t := by
  obtain ⟨tv, tq⟩ := t
  simp [Isometry.mul, Isometry.identity, inverseTransformVector, Vector4.xyz,
    origin_x, origin_y, origin_z, origin_w, rotateVec_zero3,
    mulVec4_translate_origin_origin, cross_zero_right, norm3_zero3,
    unitNewAndGet, quat_one_mul]

lemma mul_identity_right (t : Isometry) (h : t.translation.w ≠ -1) :
    Isometry.mul t Isometry.identity = t := by
  obtain ⟨tv, tq⟩ := t
  have h' : tv.w ≠ -1 := h
  simp [Isometry.mul, Isometry.identity, inverseTransformVector, conj_one,
    rotateVec_one, Vector4.xyz, eta_v4, mulVec4_translate_origin_point tv h',
    cross_self, norm3_zero3, unitNewAndGet, quat_mul_one]

lemma absDiffEq_self_of (ε : ℝ) (hε : 0 ≤ ε) (a : Isometry) : absDiffEq ε a a := by
  simp [absDiffEq, absDiffEqV4, absDiffEqQ, hε]

lemma clamp_eq_max_min (v : ℝ) : clamp v (-1) 1 = max (-1) (min v 1) := by
  unfold clamp
  split_ifs with h1 h2
  · rw [min_eq_left h2.le, max_eq_right h1.le]
  · push_neg at h2
    rw [min_eq_right h2, max_eq_right (by norm_num : (-1 : ℝ) ≤ 1)]
  · push_neg at h1
    rw [min_eq_left (h1.trans (by norm_num)), max_eq_left h1]

lemma loc_angle_eq_spec (a b c : ℝ) (hb : b ≠ 0) (hc : c ≠ 0) :
    loc_angle a b c = locAngleSpec a b c := by
  simp only [loc_angle, locAngleSpec]
  rw [if_neg (mul_ne_zero (Real.sinh_ne_zero.2 hb) (Real.sinh_ne_zero.2 hc)),
    clamp_eq_max_min]

lemma distance_origin_origin : distance origin origin = 0 := by
  have hmo : mip origin origin = -1 := by simp [mip, origin]
  simp only [distance, hmo, arcosh]
  norm_num

/-- Claim C1: composing self with rhs forms x from self.translation's spatial part
transformed by the inverse of rhs.rotation with self.translation.w reattached, sets the
translation to translate(origin, x) applied to rhs.translation, and sets the rotation to
self.rotation · rhs.rotation, corrected by the axis-angle rotation about the normalized
cross product of the new translation's and x's spatial parts through the triangle defect
of (x, new translation, origin) whenever that cross product has nonzero magnitude. -/
theorem C1_composition_follows_spec (self rhs : Isometry) :
    Isometry.mul self rhs = composeSpec self rhs := rfl

/-- Claim C3 (amended): identity() is the isometry with translation the hyperboloid
origin and rotation the identity quaternion; identity() * T equals T for every T, and
T * identity() equals T for every T whose translation w-coordinate is not -1 (the
modelled translate collaborator is singular there); equality is exact, hence within
1e-5 componentwise on translation and rotation. -/
theorem C3_identity_laws_amended :
    Isometry.identity.translation = origin ∧ Isometry.identity.rotation = 1 ∧
    (∀ t : Isometry, absDiffEq (1e-5) (Isometry.mul Isometry.identity t) t) ∧
    (∀ t : Isometry, t.translation.w ≠ -1 →
      absDiffEq (1e-5) (Isometry.mul t Isometry.identity) t) := by
  refine ⟨rfl, rfl, fun t => ?_, fun t h => ?_⟩
  · rw [mul_identity_left]
    exact absDiffEq_self_of _ (by norm_num) t
  · rw [mul_identity_right t h]
    exact absDiffEq_self_of _ (by norm_num) t

/-- Claim C3 fails as stated: for the isometry with translation (1,0,0,-1) (a valid
struct value, its w-coordinate is nonzero) and identity rotation, T * identity() is not
within 1e-5 of T, because the translate matrix is singular at w = -1. -/
theorem C3_counterexample :
    ¬ absDiffEq (1e-5) (Isometry.mul ⟨⟨1, 0, 0, -1⟩, 1⟩ Isometry.identity)
      ⟨⟨1, 0, 0, -1⟩, 1⟩ := by
  intro hcl
  have hx := hcl.1.1
  have hv : (Isometry.mul ⟨⟨1, 0, 0, -1⟩, 1⟩ Isometry.identity).translation.x = 2 := by
    simp [Isometry.mul, Isometry.identity, inverseTransformVector, conj_one, rotateVec_one,
      Vector4.xyz, translate, mulVec4, dot4, addV4, smulV4, minkJ, mip, origin]
  rw [hv] at hx
  norm_num at hx

/-- Witness for C3: the amended identity laws evaluated at the concrete isometry with
translation (1/2, 0, 0, 1) and identity rotation. -/
theorem C3_witness :
    absDiffEq (1e-5)
      (Isometry.mul ⟨⟨1 / 2, 0, 0, 1⟩, 1⟩ Isometry.identity) ⟨⟨1 / 2, 0, 0, 1⟩, 1⟩ :=
  C3_identity_laws_amended.2.2.2 ⟨⟨1 / 2, 0, 0, 1⟩, 1⟩ (by norm_num)

/-- Claim C4: triangle_defect returns exactly zero when any pairwise distance is exactly
zero (in particular at (origin, origin, origin)), and otherwise returns pi minus the sum
of the three interior angles given by the hyperbolic law of cosines on the three side
lengths. -/
theorem C4_defect_formula_and_degenerate :
    (∀ p0 p1 p2 : Vector4,
      triangle_defect p0 p1 p2 =
        if distance p0 p1 = 0 ∨ distance p1 p2 = 0 ∨ distance p2 p0 = 0 then 0
        else Real.pi -
          (locAngleSpec (distance p0 p1) (distance p1 p2) (distance p2 p0) +
           locAngleSpec (distance p1 p2) (distance p2 p0) (distance p0 p1) +
           locAngleSpec (distance p2 p0) (distance p0 p1) (distance p1 p2))) ∧
    triangle_defect origin origin origin = 0 := by
  constructor
  · intro p0 p1 p2
    simp only [triangle_defect]
    split_ifs with h
    · rfl
    · push_neg at h
      obtain ⟨ha, hb, hc⟩ := h
      rw [loc_angle_eq_spec _ _ _ hb hc, loc_angle_eq_spec _ _ _ hc ha,
        loc_angle_eq_spec _ _ _ ha hb]
  · simp only [triangle_defect]
    rw [if_pos (Or.inl distance_origin_origin)]

/-- Claim C5: the angle function returns zero when sinh b · sinh c is zero, and
otherwise the arccos of the law-of-cosines cosine clamped to the interval from -1 to 1. -/
theorem C5_loc_angle_formula (a b c : ℝ) :
    loc_angle a b c =
      if Real.sinh b * Real.sinh c = 0 then 0
      else Real.arccos (max (-1)
        (min ((Real.cosh b * Real.cosh c - Real.cosh a) / (Real.sinh b * Real.sinh c)) 1)) := by
  simp only [loc_angle]
  split_ifs
  · rfl
  · rw [clamp_eq_max_min]

/-- Claim C6: the angle function is total over the reals: for every triple of side
lengths, also when the law-of-cosines cosine argument leaves the interval from -1 to 1,
the result is a real number lying in the closed interval from 0 to pi. -/
theorem C6_angle_total_in_range (a b c : ℝ) :
    0 ≤ loc_angle a b c ∧ loc_angle a b c ≤ Real.pi := by
  simp only [loc_angle]
  split_ifs
  · exact ⟨le_rfl, Real.pi_nonneg⟩
  · exact ⟨Real.arccos_nonneg _, Real.arccos_le_pi _⟩

/-- Claim C7: from_parts has precondition translation.w ≠ 0 checked only by the
debug-build assertion; under the precondition the assertion does not fire and the
returned isometry carries exactly the given translation and rotation. -/
theorem C7_from_parts_spec (t : Vector4) (r : Quat) (h : t.w ≠ 0) :
    from_parts_debug t r = some (Isometry.from_parts t r) ∧
    (Isometry.from_parts t r).translation = t ∧ (Isometry.from_parts t r).rotation = r :=
  ⟨by simp [from_parts_debug, Isometry.from_parts, h], rfl, rfl⟩

/-- Witness for C7: from_parts at the origin translation and identity rotation. -/
theorem C7_witness :
    from_parts_debug origin 1 = some (Isometry.from_parts origin 1) ∧
    (Isometry.from_parts origin 1).translation = origin ∧
    (Isometry.from_parts origin 1).rotation = 1 :=
  C7_from_parts_spec origin 1 (by norm_num [origin])

/-- Claim C8: applying an isometry to a homogeneous vector multiplies
translate(origin, translation) into the vector whose spatial part is the input's spatial
part rotated by the rotation and whose fourth component is the input's w, and the four
owned/borrowed operator overloads all produce this same result. -/
theorem C8_apply_vector (iso : Isometry) (v : Vector4) :
    Isometry.mulVec iso v =
      mulVec4 (translate origin iso.translation)
        ⟨(rotateVec iso.rotation v.xyz).x, (rotateVec iso.rotation v.xyz).y,
         (rotateVec iso.rotation v.xyz).z, v.w⟩ ∧
    mulVecValRef iso v = Isometry.mulVec iso v ∧
    mulVecRefVal iso v = Isometry.mulVec iso v ∧
    mulVecValVal iso v = Isometry.mulVec iso v :=
  ⟨rfl, rfl, rfl, rfl⟩

/-- Claim C9: triangle_defect is invariant under cyclic permutation of its three
arguments, in the degenerate and non-degenerate cases alike. -/
theorem C9_defect_cyclic (p0 p1 p2 : Vector4) :
    triangle_defect p0 p1 p2 = triangle_defect p1 p2 p0 := by
  simp only [triangle_defect]
  exact if_congr (by tauto) rfl (by ring)

/-- Claim C10: the angle function is symmetric in its last two arguments, including the
degenerate case of a vanishing sinh b · sinh c. -/
theorem C10_loc_angle_symmetric (a b c : ℝ) : loc_angle a b c = loc_angle a c b := by
  simp only [loc_angle]
  rw [mul_comm (Real.sinh b) (Real.sinh c), mul_comm (Real.cosh b) (Real.cosh c)]

end

end Hypermine
